import Mathlib

/-!
# Verification of the import-data-generator schema pipeline

Shallow embedding of the schema extraction, row generation, row validation,
retry, sanitization and driver logic of the Go sources (`main.go` and the
unnamed companion file).  Go maps are modelled as association lists with
override-on-insert semantics (`putS`/`getS`); Go's dynamically typed JSON
values (`interface{}`) as the inductive `Value`; fallible code as `Except`.
Strings are Lean `String`s and Go byte indexing is modelled on the character
list `String.data` (all strings involved are ASCII).
-/

/-- Field metadata, embedding Go `FieldInfo` (`main.go` lines 38-41):
`type` is the declared type name (`Type` in Go, renamed because `Type` is a
Lean keyword) and `jsonTag` is the tag-derived wire name (`JSONTag`). -/
structure FieldInfo where
  type : String
  jsonTag : String
deriving DecidableEq, Repr

/-- Struct metadata, embedding Go `StructInfo` (`main.go` lines 44-48). -/
structure StructInfo where
  Def : String
  Fields : List (String × FieldInfo)
  IsNested : Bool
deriving DecidableEq, Repr

abbrev FieldMap := List (String × FieldInfo)

/-- A schema graph: Go's `map[string]StructInfo`, as an association list with
unique keys maintained by `putS`. -/
abbrev SchemaGraph := List (String × StructInfo)

/-- Go map read: first entry with the given key. -/
def getS {α : Type} : List (String × α) → String → Option α
  | [], _ => none
  | (k, v) :: rest, key => if k = key then some v else getS rest key

/-- Go map write: override the existing entry for the key, else append. -/
def putS {α : Type} (m : List (String × α)) (k : String) (v : α) : List (String × α) :=
  if m.any (fun p => p.1 = k) then m.map (fun p => if p.1 = k then (k, v) else p)
  else m ++ [(k, v)]

/-- A dynamically typed JSON-like value (Go `interface{}` after
`json.Unmarshal`, plus `int` from gofakeit).  Numbers are abstracted to `Int`;
the validator never inspects numeric contents. -/
inductive Value where
  | str : String → Value
  | int : Int → Value
  | bool : Bool → Value
  | null : Value
  | arr : List Value → Value
  | obj : List (String × Value) → Value

/-- One generated row: Go `GeneratedRow = map[string]interface{}`. -/
abbrev Row := List (String × Value)

/-- Go type assertion `v.(map[string]interface\x7b\x7d)`: the object payload
when the value is an object, `none` otherwise. -/
def Value.asObj : Value → Option (List (String × Value))
  | .obj o => some o
  | _ => none

/-! ## Schema extraction (`extractStructDefs`, `main.go` lines 242-320)

The Go AST parsing itself is external (`go/parser`); the embedding starts
from the parsed shape: a list of struct declarations, each with a name, its
printed definition text and its field declarations.  A field whose type is
neither an identifier nor a qualified identifier is recorded with
`typeName = none` and skipped, matching the `default: continue` branch. -/

/-- One parsed field declaration: name, resolvable type name (if any), and
the raw struct-tag text including backquotes (if any). -/
structure FieldDecl where
  name : String
  typeName : Option String
  tag : Option String
deriving DecidableEq, Repr

/-- One parsed struct declaration. -/
structure StructDecl where
  name : String
  defText : String
  fieldDecls : List FieldDecl
deriving DecidableEq, Repr

/-- The backquote character, obtained from a string literal. -/
def btChar : Char := "`".data.headD ' '

/-- Go `strings.Trim(s, "\x60")`: drop backquotes from both ends. -/
def trimBackticks (s : String) : String :=
  String.mk (((s.data.dropWhile (· = btChar)).reverse.dropWhile (· = btChar)).reverse)

/-- Splitting on non-overlapping occurrences of a non-empty separator, with
enough fuel to cover the whole list (each step consumes at least one
character). -/
def splitGoAux (sep : List Char) : Nat → List Char → List (List Char)
  | _, [] => [[]]
  | 0, l => [l]
  | fuel + 1, c :: rest =>
    if sep.isPrefixOf (c :: rest) then
      [] :: splitGoAux sep fuel ((c :: rest).drop sep.length)
    else
      match splitGoAux sep fuel rest with
      | [] => [[c]]
      | part :: parts => (c :: part) :: parts

/-- Go `strings.Split(s, sep)` for the non-empty separators the source uses
(`json:"`, `"` and `,`); the empty-separator case never occurs in the
source and is modelled as the identity split. -/
def splitGo (s sep : String) : List String :=
  if sep.data = [] then [s]
  else (splitGoAux sep.data s.data.length s.data).map String.mk

/-- Wire-name extraction from a raw struct tag (`main.go` lines 277-286):
trim backquotes, split on `json:"`, take the text up to the closing quote,
then drop everything from the first comma (the comment says
"Remove omitempty, etc.").  Without a tag the field name itself is used. -/
def parseJSONTag (fieldName : String) (tag : Option String) : String :=
  match tag with
  | none => fieldName
  | some raw =>
    let t := trimBackticks raw
    let parts := splitGo t "json:\""
    match parts with
    | _ :: p1 :: _ => (splitGo ((splitGo p1 "\"").headD "") ",").headD ""
    | _ => fieldName

/-- First pass, field collection for one struct (`main.go` lines 263-292). -/
def buildFields (fds : List FieldDecl) : FieldMap :=
  fds.foldl
    (fun acc fd =>
      match fd.typeName with
      | none => acc
      | some t => putS acc fd.name ⟨t, parseJSONTag fd.name fd.tag⟩) []

/-- First pass over all declarations (`main.go` lines 250-302): every struct
enters the graph with `IsNested := false`. -/
def collectStructs (ds : List StructDecl) : SchemaGraph :=
  ds.foldl (fun acc d => putS acc d.name ⟨d.defText, buildFields d.fieldDecls, false⟩) []

/-- Mark one record nested (`nestedInfo.IsNested = true`, `main.go` line 309). -/
def setNestedVal (i : StructInfo) : StructInfo := { i with IsNested := true }

/-- Set `IsNested := true` on the entry named `t` (`main.go` lines 308-310). -/
def setNested (g : SchemaGraph) (t : String) : SchemaGraph :=
  g.map (fun p => if p.1 = t then (p.1, setNestedVal p.2) else p)

/-- Inner loop of the second pass (`main.go` lines 306-312): for each field,
if its declared type names a record of the graph, mark that record nested. -/
def markNestedFields (g : SchemaGraph) (fs : FieldMap) : SchemaGraph :=
  fs.foldl (fun acc f => if (getS acc f.2.type).isSome then setNested acc f.2.type else acc) g

/-- Second pass (`main.go` lines 304-313): runs only after the whole graph is
assembled, over every field of every record. -/
def markNested (g : SchemaGraph) : SchemaGraph :=
  g.foldl (fun acc e => markNestedFields acc e.2.Fields) g

/-- Whole extraction (`main.go` lines 242-320): collect, mark nested, fail if
no struct definitions were found. -/
def extractStructDefs (ds : List StructDecl) : Option SchemaGraph :=
  let g := markNested (collectStructs ds)
  if g.isEmpty then none else some g

/-- Does any record of `g` declare a field whose type is `n`?  (The condition
the second pass is meant to compute.) -/
def referencedBy (g : SchemaGraph) (n : String) : Bool :=
  g.any (fun e => e.2.Fields.any (fun f => f.2.type = n))

/-! ## Row validation of the delegated strategy (`GenerateData`,
`main.go` lines 153-183) -/

/-- Errors of `GenerateData`; the Go code formats them into strings, the
embedding keeps the data.  Row indices are 1-based (`i+1`), as printed. -/
inductive GenError where
  | missingField (row : Nat) (structName : String) (field : String)
  | invalidNested (row : Nat) (structName : String) (field : String)
  | missingNestedField (row : Nat) (structName : String) (field : String) (nested : String)
  | rowCount (structName : String) (got : Nat)
deriving DecidableEq, Repr

/-- Wire name used at validation time (`main.go` lines 157-160): the stored
tag, or the field name when the stored tag is empty. -/
def wireName (fieldName : String) (fi : FieldInfo) : String :=
  if fi.jsonTag = "" then fieldName else fi.jsonTag

/-- Does `needle` occur as a contiguous sublist of the list? -/
def hasSubList (needle : List Char) : List Char → Bool
  | [] => needle.isEmpty
  | c :: rest => needle.isPrefixOf (c :: rest) || hasSubList needle rest

/-- Go `strings.Contains(s, "omitempty")`. -/
def containsOmitempty (s : String) : Bool :=
  hasSubList "omitempty".data s.data

/-- Nested-field presence check (`main.go` lines 171-179): a nested field is
required unless its stored tag contains `omitempty`. -/
def checkNestedFields (rowIdx : Nat) (sName fTag : String) :
    FieldMap → Row → Except GenError Unit
  | [], _ => .ok ()
  | (nfName, nfi) :: rest, nested =>
    let ntag := wireName nfName nfi
    if (getS nested ntag).isNone && !(containsOmitempty nfi.jsonTag) then
      .error (.missingNestedField rowIdx sName fTag ntag)
    else checkNestedFields rowIdx sName fTag rest nested

/-- Per-row field checks (`main.go` lines 156-182): every field's wire name
must be present; a field whose declared type names a record of the graph must
hold an object, whose subfields are then checked. -/
def checkFields (g : SchemaGraph) (rowIdx : Nat) (sName : String) :
    FieldMap → Row → Except GenError Unit
  | [], _ => .ok ()
  | (fName, fi) :: rest, row =>
    let tag := wireName fName fi
    match getS row tag with
    | none => .error (.missingField rowIdx sName tag)
    | some v =>
      match getS g fi.type with
      | none => checkFields g rowIdx sName rest row
      | some ni =>
        match v.asObj with
        | some nested =>
          match checkNestedFields rowIdx sName tag ni.Fields nested with
          | .ok _ => checkFields g rowIdx sName rest row
          | .error e => .error e
        | none => .error (.invalidNested rowIdx sName tag)

/-- Row loop of the validation (`main.go` lines 155-183), 1-based indices. -/
def validateRowsAux (g : SchemaGraph) (sName : String) (fs : FieldMap) :
    Nat → List Row → Except GenError Unit
  | _, [] => .ok ()
  | i, row :: rest =>
    match checkFields g (i + 1) sName fs row with
    | .ok _ => validateRowsAux g sName fs (i + 1) rest
    | .error e => .error e

/-- Schema validation of `GenerateData` (`main.go` lines 153-183).  A missing
record name yields Go's zero value (empty field map), as in
`structInfos[structName]`. -/
def validateRows (g : SchemaGraph) (sName : String) (rows : List Row) : Except GenError Unit :=
  let cs := (getS g sName).getD ⟨"", [], false⟩
  validateRowsAux g sName cs.Fields 0 rows

/-- Row-count gate of `GenerateData` (`main.go` lines 148-151). -/
def checkRowCount (sName : String) (n : Nat) : Except GenError Unit :=
  if n < 25 || n > 30 then .error (.rowCount sName n) else .ok ()

/-! ## Reply sanitization (`GenerateData`, `main.go` lines 124-132) -/

/-- Go `unicode.IsSpace` on the code points `strings.TrimSpace` trims
(space, tab, newline, vertical tab, form feed, carriage return, NEL, NBSP). -/
def isGoSpace (c : Char) : Bool :=
  c = ' ' || c = '\t' || c = '\n' || c = Char.ofNat 11 || c = Char.ofNat 12 ||
  c = '\r' || c = Char.ofNat 0x85 || c = Char.ofNat 0xA0

/-- Go `strings.TrimSpace` on a character list. -/
def trimL (l : List Char) : List Char :=
  ((l.dropWhile isGoSpace).reverse.dropWhile isGoSpace).reverse

/-- Go `strings.TrimPrefix` on character lists. -/
def trimPrefixL (p l : List Char) : List Char :=
  if p.isPrefixOf l then l.drop p.length else l

/-- Go `strings.TrimSuffix` on character lists. -/
def trimSuffixL (p l : List Char) : List Char :=
  if p.isSuffixOf l then l.take (l.length - p.length) else l

/-- The sanitization sequence of `main.go` lines 125-132 on a character
list: trim, strip the fence prefixes and suffix, trim again, and wrap in
array brackets unless the text already starts with `[` and ends with `]`. -/
def sanitizeL (l : List Char) : List Char :=
  let c1 := trimL l
  let c2 := trimPrefixL "```json\n".data c1
  let c3 := trimPrefixL "```\n".data c2
  let c4 := trimSuffixL "\n```".data c3
  let c5 := trimL c4
  if !("[".data.isPrefixOf c5) || !("]".data.isSuffixOf c5) then
    "[".data ++ c5 ++ "]".data
  else c5

/-- Reply sanitization (`main.go` lines 124-132). -/
def sanitize (s : String) : String := String.mk (sanitizeL s.data)

/-! ## Backend retry loop (`GenerateData`, `main.go` lines 100-113) -/

/-- `apiRetries` constant (`main.go` line 28). -/
def apiRetries : Nat := 2

/-- Observable events of the retry loop: a backend invocation with its
attempt number, and a sleep with its duration in seconds. -/
inductive CallEv where
  | call (attempt : Nat)
  | sleep (seconds : Nat)
deriving DecidableEq, Repr

/-- Outcome of the retry loop: a response, or exhaustion carrying the last
underlying error (wrapped into the `failed to generate content ... after %d
attempts` message in Go). -/
inductive RetryResult (E R : Type) where
  | ok (r : R)
  | exhausted (last : E)
deriving DecidableEq, Repr

/-- Is the event a backend call? -/
def CallEv.isCall : CallEv → Bool
  | .call _ => true
  | .sleep _ => false

/-- The loop `for attempt := 1; attempt <= apiRetries; attempt++` of
`main.go` lines 103-113, one step per attempt; `rest` is the number of
attempts still allowed after this one (`rest = 0` iff
`attempt == apiRetries`).  On failure of a non-final attempt the code sleeps
one second and retries; on failure of the final attempt it returns the last
error. -/
def retryFrom {E R : Type} (backend : Nat → Except E R) (attempt : Nat) :
    Nat → RetryResult E R × List CallEv
  | 0 =>
    match backend attempt with
    | .ok r => (.ok r, [.call attempt])
    | .error e => (.exhausted e, [.call attempt])
  | rest + 1 =>
    match backend attempt with
    | .ok r => (.ok r, [.call attempt])
    | .error _ =>
      let p := retryFrom backend (attempt + 1) rest
      (p.1, .call attempt :: .sleep 1 :: p.2)

/-- The whole retry loop with the constant bound `apiRetries = 2`. -/
def generateWithRetries {E R : Type} (backend : Nat → Except E R) :
    RetryResult E R × List CallEv :=
  retryFrom backend 1 (apiRetries - 1)

/-! ## Deterministic strategy (`generateCustomer`, companion file
lines 44-127)

The gofakeit library is external; it is modelled as an oracle of value
streams consulted at a global call tick that advances by one at every
library call, mirroring the single shared PRNG.  Go's byte slicing
`s[:n]` / `s[n:]` panics when `n` exceeds `len(s)`; the panic is modelled as
a distinguished `outOfRange` outcome. -/

/-- Oracle for the gofakeit calls used by `generateCustomer`. -/
structure Oracle where
  nameAt : Nat → String
  randomStringAt : Nat → List String → String
  uuidAt : Nat → String
  numberAt : Nat → Int → Int → Int
  phoneAt : Nat → String

/-- Errors (and the modelled slice panic) of the deterministic strategy. -/
inductive DetError where
  | outOfRange
  | missingField (row : Nat) (field : String)
  | invalidPhone (row : Nat)
  | missingPhoneField (row : Nat) (field : String)
deriving DecidableEq, Repr

/-- Go `s[:n]`: defined iff `n ≤ len(s)`. -/
def goSliceTo (s : String) (n : Nat) : Option String :=
  if n ≤ s.data.length then some (String.mk (s.data.take n)) else none

/-- Go `s[n:]`: defined iff `n ≤ len(s)`. -/
def goSliceFrom (s : String) (n : Nat) : Option String :=
  if n ≤ s.data.length then some (String.mk (s.data.drop n)) else none

/-- Phone-object synthesis (companion file lines 62-81): for each field of
the `Phone` record, dispatch on the field name; `p1` takes the first two
bytes of one freshly drawn formatted phone value, `p2` takes the bytes from
index 3 of another freshly drawn value.  Each draw advances the tick. -/
def genPhoneFields (o : Oracle) :
    FieldMap → Row → Nat → Except DetError (Row × Nat)
  | [], acc, t => .ok (acc, t)
  | (nfName, nfi) :: rest, acc, t =>
    let ntag := wireName nfName nfi
    if nfName = "p1" then
      match goSliceTo (o.phoneAt t) 2 with
      | none => .error .outOfRange
      | some cc => genPhoneFields o rest (putS acc ntag (.str cc)) (t + 1)
    else if nfName = "p2" then
      match goSliceFrom (o.phoneAt t) 3 with
      | none => .error .outOfRange
      | some num => genPhoneFields o rest (putS acc ntag (.str num)) (t + 1)
    else genPhoneFields o rest acc t

/-- Per-row synthesis (companion file lines 52-95): `Phone`-typed fields get
a nested phone object; other fields dispatch on the field name
(`Name`, `Type`, `CustomerID`, `TaxIdNumber`); unknown names produce no
value. -/
def genCustomerFields (o : Oracle) (g : SchemaGraph) :
    FieldMap → Row → Nat → Except DetError (Row × Nat)
  | [], acc, t => .ok (acc, t)
  | (fName, fi) :: rest, acc, t =>
    let tag := wireName fName fi
    if fi.type = "Phone" then
      match genPhoneFields o ((getS g "Phone").getD ⟨"", [], false⟩).Fields [] t with
      | .error e => .error e
      | .ok (nr, t') => genCustomerFields o g rest (putS acc tag (.obj nr)) t'
    else if fName = "Name" then
      genCustomerFields o g rest (putS acc tag (.str (o.nameAt t))) (t + 1)
    else if fName = "Type" then
      genCustomerFields o g rest
        (putS acc tag (.str (o.randomStringAt t ["Individual", "Business", "NonProfit"]))) (t + 1)
    else if fName = "CustomerID" then
      genCustomerFields o g rest (putS acc tag (.str (o.uuidAt t))) (t + 1)
    else if fName = "TaxIdNumber" then
      genCustomerFields o g rest (putS acc tag (.int (o.numberAt t 100000000 999999999))) (t + 1)
    else genCustomerFields o g rest acc t

/-- The 30-iteration row loop (companion file lines 45-96). -/
def genCustomerRows (o : Oracle) (g : SchemaGraph) (cf : FieldMap) :
    Nat → Nat → List Row → Except DetError (List Row × Nat)
  | 0, t, acc => .ok (acc.reverse, t)
  | k + 1, t, acc =>
    match genCustomerFields o g cf [] t with
    | .error e => .error e
    | .ok (row, t') => genCustomerRows o g cf k t' (row :: acc)

/-- Nested presence check of the companion file's validation
(lines 112-120): every field of the `Phone` record must be present (no
omitempty exemption here). -/
def checkPhoneFields (rowIdx : Nat) : FieldMap → Row → Except DetError Unit
  | [], _ => .ok ()
  | (nn, nfi) :: rest, nested =>
    let ntag := wireName nn nfi
    if (getS nested ntag).isNone then .error (.missingPhoneField rowIdx ntag)
    else checkPhoneFields rowIdx rest nested

/-- Per-row check of the companion file's validation (lines 100-123). -/
def checkCustomerRow (g : SchemaGraph) (rowIdx : Nat) :
    FieldMap → Row → Except DetError Unit
  | [], _ => .ok ()
  | (fName, fi) :: rest, row =>
    let tag := wireName fName fi
    match getS row tag with
    | none => .error (.missingField rowIdx tag)
    | some v =>
      if fi.type = "Phone" then
        match v.asObj with
        | some nested =>
          match checkPhoneFields rowIdx ((getS g "Phone").getD ⟨"", [], false⟩).Fields nested with
          | .ok _ => checkCustomerRow g rowIdx rest row
          | .error e => .error e
        | none => .error (.invalidPhone rowIdx)
      else checkCustomerRow g rowIdx rest row

/-- Row loop of the companion file's validation (lines 99-124). -/
def validateCustomerRowsAux (g : SchemaGraph) (cf : FieldMap) :
    Nat → List Row → Except DetError Unit
  | _, [] => .ok ()
  | i, row :: rest =>
    match checkCustomerRow g (i + 1) cf row with
    | .ok _ => validateCustomerRowsAux g cf (i + 1) rest
    | .error e => .error e

/-- Validation block of `generateCustomer` (companion file lines 99-124). -/
def validateCustomerRows (g : SchemaGraph) (cf : FieldMap) (rows : List Row) :
    Except DetError Unit :=
  validateCustomerRowsAux g cf 0 rows

/-- `generateCustomer` (companion file lines 44-127): synthesize 30 rows for
the `Customer` record, then validate them; return the rows on success. -/
def generateCustomer (o : Oracle) (g : SchemaGraph) : Except DetError (List Row) :=
  let cf := ((getS g "Customer").getD ⟨"", [], false⟩).Fields
  match genCustomerRows o g cf 30 0 [] with
  | .error e => .error e
  | .ok (rows, _) =>
    match validateCustomerRows g cf rows with
    | .error e => .error e
    | .ok _ => .ok rows

/-! ## Pipeline driver (`ProcessModel`, `main.go` lines 332-358) -/

/-- Per-record outcome of the driver loop, as reported in the Go logs. -/
inductive DriverEv where
  | skippedNested (name : String)
  | generateFailed (name : String)
  | saveFailed (name : String)
  | exported (name : String)
deriving DecidableEq, Repr

/-- One iteration of the driver loop (`main.go` lines 333-358): skip nested
records; otherwise generate, and on success export; each failure is logged
and the loop continues. -/
def recordStep (gen : String → Except String (List Row))
    (save : String → List Row → Except String Unit) (e : String × StructInfo) : DriverEv :=
  if e.2.IsNested then .skippedNested e.1
  else
    match gen e.1 with
    | .error _ => .generateFailed e.1
    | .ok rows =>
      match save e.1 rows with
      | .error _ => .saveFailed e.1
      | .ok _ => .exported e.1

/-- The driver loop over all records of the graph (`main.go` lines 333-358):
collects the per-record outcomes; the function itself returns `nil`
(success) — per-record failures never abort the unit. -/
def processStructs (gen : String → Except String (List Row))
    (save : String → List Row → Except String Unit) (g : SchemaGraph) :
    List DriverEv × Except String Unit :=
  (g.foldl
    (fun evs e =>
      if e.2.IsNested then evs ++ [.skippedNested e.1]
      else
        match gen e.1 with
        | .error _ => evs ++ [.generateFailed e.1]
        | .ok rows =>
          match save e.1 rows with
          | .error _ => evs ++ [.saveFailed e.1]
          | .ok _ => evs ++ [.exported e.1]) [],
   .ok ())

/-! ## Concrete fixtures used by witnesses and counterexamples -/

/-- The `Phone` record of the reference scenario (`customer.go` input):
fields `p1` and `p2` with tag-derived wire names. -/
def refPhoneFields : FieldMap :=
  [("p1", ⟨"string", "country_code"⟩), ("p2", ⟨"string", "phone_number"⟩)]

/-- The reference `Customer` record: an identifier field, a categorical
field, and a phone-composite field. -/
def refCustomerFields : FieldMap :=
  [("CustomerID", ⟨"string", "customer_id"⟩), ("Type", ⟨"string", "type"⟩),
   ("PhoneNumber", ⟨"Phone", "phone"⟩)]

/-- The reference schema graph after extraction. -/
def refGraph : SchemaGraph :=
  [("Customer", ⟨"type Customer struct", refCustomerFields, false⟩),
   ("Phone", ⟨"type Phone struct", refPhoneFields, true⟩)]

/-- A constant oracle whose formatted phone value is `+1 555-1234`. -/
def oW : Oracle :=
  ⟨fun _ => "Jane Doe", fun _ l => l.headD "", fun _ => "id-0001",
   fun _ lo _ => lo, fun _ => "+1 555-1234"⟩

/-- The row `generateCustomer` produces for every iteration under `oW` on
`refGraph`. -/
def c7row : Row :=
  [("customer_id", .str "id-0001"), ("type", .str "Individual"),
   ("phone", .obj [("country_code", .str "+1"), ("phone_number", .str "555-1234")])]

/-- Declarations with a forward reference: `Order` mentions `Customer`
before `Customer` is declared. -/
def c1decls : List StructDecl :=
  [⟨"Order", "type Order struct", [⟨"Buyer", some "Customer", none⟩]⟩,
   ⟨"Customer", "type Customer struct", [⟨"Name", some "string", none⟩]⟩]

/-- The graph extracted from `c1decls`. -/
def c1graph : SchemaGraph :=
  [("Order", ⟨"type Order struct", [("Buyer", ⟨"Customer", "Buyer"⟩)], false⟩),
   ("Customer", ⟨"type Customer struct", [("Name", ⟨"string", "Name"⟩)], true⟩)]

/-- The `Customer` entry of `c1graph`. -/
def c1CustInfo : StructInfo :=
  ⟨"type Customer struct", [("Name", ⟨"string", "Name"⟩)], true⟩

/-- A row with every wire name of the reference `Customer` record and a
conforming nested phone object. -/
def c2goodRow : Row :=
  [("customer_id", .str "a"), ("type", .str "Individual"),
   ("phone", .obj [("country_code", .str "+1"), ("phone_number", .str "5551234")])]

/-- A row missing the wire name `type`. -/
def c2badRow : Row :=
  [("customer_id", .str "a"),
   ("phone", .obj [("country_code", .str "+1"), ("phone_number", .str "5551234")])]

/-- Declarations whose nested `Phone` record tags `p1` as optional via
`,omitempty`. -/
def c3decls : List StructDecl :=
  [⟨"Customer", "type Customer struct",
    [⟨"PhoneNumber", some "Phone", some "`json:\"phone\"`"⟩]⟩,
   ⟨"Phone", "type Phone struct",
    [⟨"p1", some "string", some "`json:\"p1,omitempty\"`"⟩,
     ⟨"p2", some "string", some "`json:\"p2\"`"⟩]⟩]

/-- The graph extracted from `c3decls`: the `,omitempty` modifier is gone
from the stored tag of `p1`. -/
def c3graph : SchemaGraph :=
  [("Customer", ⟨"type Customer struct", [("PhoneNumber", ⟨"Phone", "phone"⟩)], false⟩),
   ("Phone", ⟨"type Phone struct",
     [("p1", ⟨"string", "p1"⟩), ("p2", ⟨"string", "p2"⟩)], true⟩)]

/-- A row whose nested phone object omits only the optional subfield `p1`. -/
def c3row : Row := [("phone", .obj [("p2", .str "5551234")])]

/-- An oracle whose first two formatted phone draws differ. -/
def c6Oracle : Oracle :=
  ⟨fun _ => "", fun _ _ => "", fun _ => "", fun _ _ _ => 0,
   fun t => if t = 0 then "+1 111-1111" else "+2 222-2222"⟩

/-- A generation strategy that fails for the `Customer` record. -/
def genW : String → Except String (List Row) :=
  fun n => if n = "Customer" then .error "backend down" else .ok []

/-- An exporter that always succeeds. -/
def saveW : String → List Row → Except String Unit := fun _ _ => .ok ()

/-! # Theorems -/

/-! ## Association-list and nesting-pass lemmas -/

theorem getS_cons {α : Type} (e : String × α) (rest : List (String × α)) (key : String) :
    getS (e :: rest) key = if e.1 = key then some e.2 else getS rest key := by
  obtain ⟨k, v⟩ := e
  rfl

theorem getS_mapVal {α : Type} (f : α → α) (g : List (String × α)) (t m : String) :
    getS (g.map fun p => if p.1 = t then (p.1, f p.2) else p) m =
      if m = t then (getS g m).map f else getS g m := by
  induction g with
  | nil => by_cases h : m = t <;> simp [getS, h]
  | cons e rest ih =>
    obtain ⟨k, v⟩ := e
    rw [List.map_cons, getS_cons, getS_cons]
    by_cases hkt : k = t
    · by_cases hkm : k = m
      · subst hkm; subst hkt
        simp
      · subst hkt
        simp [hkm, Ne.symm hkm, ih]
    · by_cases hkm : k = m
      · subst hkm
        simp [hkt]
      · simp [hkt, hkm, ih]

theorem getS_setNested (g : SchemaGraph) (t m : String) :
    getS (setNested g t) m =
      if m = t then (getS g m).map setNestedVal else getS g m := by
  unfold setNested
  exact getS_mapVal setNestedVal g t m

theorem getS_markNestedFields (fs : FieldMap) (g : SchemaGraph) (m : String) :
    getS (markNestedFields g fs) m =
      (getS g m).map
        (fun i => { i with IsNested := i.IsNested || fs.any (fun f => f.2.type = m) }) := by
  induction fs generalizing g with
  | nil =>
    cases h : getS g m <;> simp [markNestedFields, h]
  | cons f fs ih =>
    have hstep : markNestedFields g (f :: fs) =
        markNestedFields (if (getS g f.2.type).isSome then setNested g f.2.type else g) fs := rfl
    rw [hstep]
    cases hc : getS g f.2.type with
    | none =>
      rw [if_neg (by simp [hc]), ih]
      by_cases hft : f.2.type = m
      · rw [hft] at hc
        rw [hc]
        simp
      · cases h2 : getS g m <;> simp [List.any_cons, hft]
    | some i0 =>
      rw [if_pos (by simp [hc]), ih, getS_setNested]
      by_cases hft : f.2.type = m
      · rw [hft] at hc
        rw [hft, if_pos rfl, hc]
        simp [List.any_cons, hft, setNestedVal]
      · rw [if_neg (fun hx => hft hx.symm)]
        cases h2 : getS g m <;> simp [List.any_cons, hft]

theorem getS_markNestedFrom (entries : List (String × StructInfo)) (g : SchemaGraph)
    (m : String) :
    getS (entries.foldl (fun acc e => markNestedFields acc e.2.Fields) g) m =
      (getS g m).map
        (fun i => { i with IsNested :=
          i.IsNested || entries.any (fun e => e.2.Fields.any (fun f => f.2.type = m)) }) := by
  induction entries generalizing g with
  | nil => cases h : getS g m <;> simp [h]
  | cons e es ih =>
    have hstep : (e :: es).foldl (fun acc e => markNestedFields acc e.2.Fields) g =
        es.foldl (fun acc e => markNestedFields acc e.2.Fields) (markNestedFields g e.2.Fields) :=
      rfl
    rw [hstep, ih, getS_markNestedFields]
    cases h : getS g m <;> simp [Bool.or_assoc]

theorem getS_markNested (g : SchemaGraph) (m : String) :
    getS (markNested g) m =
      (getS g m).map (fun i => { i with IsNested := i.IsNested || referencedBy g m }) :=
  getS_markNestedFrom g g m

theorem mem_putS {α : Type} (m : List (String × α)) (k : String) (v : α) (x : String × α)
    (hx : x ∈ putS m k v) : x ∈ m ∨ x = (k, v) := by
  unfold putS at hx
  by_cases h : (m.any (fun p => p.1 = k)) = true
  · rw [if_pos h] at hx
    obtain ⟨p, hp, hpx⟩ := List.mem_map.1 hx
    by_cases hpk : p.1 = k
    · rw [if_pos hpk] at hpx
      right; exact hpx.symm
    · rw [if_neg hpk] at hpx
      left; exact hpx ▸ hp
  · rw [if_neg h] at hx
    rcases List.mem_append.1 hx with h' | h'
    · exact Or.inl h'
    · exact Or.inr (List.mem_singleton.1 h')

theorem collectStructs_from_isNested_false (ds : List StructDecl) (acc : SchemaGraph)
    (hacc : ∀ e ∈ acc, e.2.IsNested = false) :
    ∀ e ∈ ds.foldl
        (fun acc d => putS acc d.name ⟨d.defText, buildFields d.fieldDecls, false⟩) acc,
      e.2.IsNested = false := by
  induction ds generalizing acc with
  | nil => exact hacc
  | cons d ds ih =>
    intro e he
    refine ih _ ?_ e he
    intro e' he'
    rcases mem_putS _ _ _ _ he' with h | h
    · exact hacc e' h
    · rw [h]

theorem collectStructs_isNested_false (ds : List StructDecl) :
    ∀ e ∈ collectStructs ds, e.2.IsNested = false :=
  collectStructs_from_isNested_false ds [] (by intro e he; cases he)

theorem getS_mem {α : Type} (m : List (String × α)) (k : String) (v : α)
    (h : getS m k = some v) : (k, v) ∈ m := by
  induction m with
  | nil => cases h
  | cons e rest ih =>
    obtain ⟨k', v'⟩ := e
    by_cases hk : k' = k
    · subst hk
      simp [getS] at h
      simp [h]
    · simp [getS, hk] at h
      simp [ih h]

theorem setNested_proj (g : SchemaGraph) (t : String) :
    (setNested g t).map (fun e => (e.1, e.2.Fields)) = g.map (fun e => (e.1, e.2.Fields)) := by
  unfold setNested
  rw [List.map_map]
  refine List.map_congr_left ?_
  intro p _
  by_cases h : p.1 = t <;> simp [h, setNestedVal]

theorem markNestedFields_proj (fs : FieldMap) (g : SchemaGraph) :
    (markNestedFields g fs).map (fun e => (e.1, e.2.Fields)) =
      g.map (fun e => (e.1, e.2.Fields)) := by
  induction fs generalizing g with
  | nil => rfl
  | cons f fs ih =>
    have hstep : markNestedFields g (f :: fs) =
        markNestedFields (if (getS g f.2.type).isSome then setNested g f.2.type else g) fs := rfl
    rw [hstep]
    by_cases h : (getS g f.2.type).isSome
    · rw [if_pos h, ih, setNested_proj]
    · rw [if_neg h, ih]

theorem markNestedFrom_proj (entries : List (String × StructInfo)) (g : SchemaGraph) :
    ((entries.foldl (fun acc e => markNestedFields acc e.2.Fields) g).map
        (fun e => (e.1, e.2.Fields))) =
      g.map (fun e => (e.1, e.2.Fields)) := by
  induction entries generalizing g with
  | nil => rfl
  | cons e es ih =>
    have hstep : (e :: es).foldl (fun acc e => markNestedFields acc e.2.Fields) g =
        es.foldl (fun acc e => markNestedFields acc e.2.Fields) (markNestedFields g e.2.Fields) :=
      rfl
    rw [hstep, ih, markNestedFields_proj]

theorem exists_field_of_proj_eq (a b : SchemaGraph)
    (h : a.map (fun e => (e.1, e.2.Fields)) = b.map (fun e => (e.1, e.2.Fields))) (n : String)
    (hx : ∃ e ∈ a, ∃ f ∈ e.2.Fields, f.2.type = n) :
    ∃ e ∈ b, ∃ f ∈ e.2.Fields, f.2.type = n := by
  obtain ⟨e, he, f, hf, hfn⟩ := hx
  have hmem : (e.1, e.2.Fields) ∈ b.map (fun e => (e.1, e.2.Fields)) := by
    rw [← h]
    exact List.mem_map_of_mem _ he
  rw [List.mem_map] at hmem
  obtain ⟨e', he', heq⟩ := hmem
  refine ⟨e', he', f, ?_, hfn⟩
  have : e'.2.Fields = e.2.Fields := congrArg Prod.snd heq
  rw [this]
  exact hf

theorem referencedBy_iff (g : SchemaGraph) (n : String) :
    referencedBy g n = true ↔ ∃ e ∈ g, ∃ f ∈ e.2.Fields, f.2.type = n := by
  simp [referencedBy, List.any_eq_true]

/-- C1: for every list of declarations from which extraction succeeds, a
record of the resulting graph is marked nested if and only if some record of
the graph declares a field whose declared type equals that record's name;
the statement quantifies over arbitrary declaration order, so forward
references are covered (the mark is computed by the second pass over the
completed graph). -/
theorem nesting_mark_iff (ds : List StructDecl) (g : SchemaGraph)
    (hg : extractStructDefs ds = some g) (n : String) (info : StructInfo)
    (hn : getS g n = some info) :
    info.IsNested = true ↔ ∃ e ∈ g, ∃ f ∈ e.2.Fields, f.2.type = n := by
  have hg' : (if (markNested (collectStructs ds)).isEmpty then (none : Option SchemaGraph)
      else some (markNested (collectStructs ds))) = some g := hg
  by_cases hemp : (markNested (collectStructs ds)).isEmpty
  · rw [if_pos hemp] at hg'; cases hg'
  · rw [if_neg hemp] at hg'
    have hgeq : g = markNested (collectStructs ds) := (Option.some.inj hg').symm
    subst hgeq
    rw [getS_markNested] at hn
    cases h0 : getS (collectStructs ds) n with
    | none => rw [h0] at hn; cases hn
    | some i0 =>
      rw [h0] at hn
      have hinfo : info = { i0 with IsNested := i0.IsNested || referencedBy (collectStructs ds) n } :=
        (Option.some.inj hn).symm
      have hfalse : i0.IsNested = false :=
        collectStructs_isNested_false ds _ (getS_mem _ _ _ h0)
      have hmark : info.IsNested = referencedBy (collectStructs ds) n := by
        rw [hinfo]
        simp [hfalse]
      rw [hmark, referencedBy_iff]
      constructor
      · intro hx
        exact exists_field_of_proj_eq _ _ (markNestedFrom_proj (collectStructs ds) _).symm n hx
      · intro hx
        exact exists_field_of_proj_eq _ _ (markNestedFrom_proj (collectStructs ds) _) n hx

/-- C1 witness: the theorem applied to the concrete forward-referencing
declarations `c1decls`, at the `Customer` record. -/
theorem nesting_mark_iff_witness :
    extractStructDefs c1decls = some c1graph ∧ getS c1graph "Customer" = some c1CustInfo ∧
      (c1CustInfo.IsNested = true ↔
        ∃ e ∈ c1graph, ∃ f ∈ e.2.Fields, f.2.type = "Customer") :=
  ⟨rfl, rfl, nesting_mark_iff c1decls c1graph rfl "Customer" c1CustInfo rfl⟩

/-! ## Row-count tolerance (C4) -/

/-- C4: after a successful parse, the delegated strategy accepts the rows if
and only if their number lies between 25 and 30 inclusive; any rejection is
reported as a row-count error naming the record and the count obtained; in
particular 24 and 31 rows are rejected and 25 and 30 rows are accepted. -/
theorem rowCount_tolerance (s : String) (n : Nat) :
    (checkRowCount s n = .ok () ↔ 25 ≤ n ∧ n ≤ 30)
    ∧ (checkRowCount s n = .ok () ∨ checkRowCount s n = .error (.rowCount s n))
    ∧ checkRowCount s 24 = .error (.rowCount s 24)
    ∧ checkRowCount s 25 = .ok ()
    ∧ checkRowCount s 30 = .ok ()
    ∧ checkRowCount s 31 = .error (.rowCount s 31) := by
  refine ⟨⟨?_, ?_⟩, ?_, rfl, rfl, rfl, rfl⟩
  · intro hok
    by_cases h : (n < 25 || n > 30) = true
    · unfold checkRowCount at hok
      rw [if_pos h] at hok
      cases hok
    · simp only [Bool.or_eq_true, decide_eq_true_eq, not_or, not_lt] at h
      omega
  · intro hn
    have h : ¬ ((n < 25 || n > 30) = true) := by
      simp only [Bool.or_eq_true, decide_eq_true_eq, not_or, not_lt]
      omega
    unfold checkRowCount
    rw [if_neg h]
  · by_cases h : (n < 25 || n > 30) = true
    · right
      unfold checkRowCount
      rw [if_pos h]
    · left
      unfold checkRowCount
      rw [if_neg h]

/-- C4 witness: concrete counts at the boundary. -/
theorem rowCount_tolerance_witness :
    checkRowCount "Customer" 27 = .ok ()
    ∧ checkRowCount "Customer" 24 = .error (.rowCount "Customer" 24) :=
  ⟨(rowCount_tolerance "Customer" 27).1.2 (by omega),
   (rowCount_tolerance "Customer" 24).2.2.1⟩

/-! ## Backend retry loop (C8) -/

theorem generateWithRetries_eq {E R : Type} (b : Nat → Except E R) :
    generateWithRetries b = retryFrom b 1 1 := rfl

theorem retryFrom_zero {E R : Type} (b : Nat → Except E R) (a : Nat) :
    retryFrom b a 0 =
      match b a with
      | .ok r => (.ok r, [.call a])
      | .error e => (.exhausted e, [.call a]) := rfl

theorem retryFrom_succ {E R : Type} (b : Nat → Except E R) (a rest : Nat) :
    retryFrom b a (rest + 1) =
      match b a with
      | .ok r => (.ok r, [.call a])
      | .error _ =>
        let p := retryFrom b (a + 1) rest
        (p.1, .call a :: .sleep 1 :: p.2) := rfl

/-- C8: when the backend fails on both attempts, the retry loop performs
exactly two calls separated by one one-second sleep and returns the last
underlying error; moreover, for every backend the loop performs at most two
calls and never a third attempt. -/
theorem retry_bounded {E R : Type} (backend : Nat → Except E R) (e1 e2 : E)
    (h1 : backend 1 = .error e1) (h2 : backend 2 = .error e2) :
    generateWithRetries backend = (.exhausted e2, [.call 1, .sleep 1, .call 2])
    ∧ (∀ b : Nat → Except E R, ((generateWithRetries b).2.filter CallEv.isCall).length ≤ 2)
    ∧ (∀ b : Nat → Except E R, ∀ a, CallEv.call a ∈ (generateWithRetries b).2 → a ≤ 2) := by
  refine ⟨?_, ?_, ?_⟩
  · rw [generateWithRetries_eq]
    show retryFrom backend 1 (0 + 1) = _
    rw [retryFrom_succ]
    simp only [h1, retryFrom_zero, h2]
  · intro b
    rw [generateWithRetries_eq]
    show ((retryFrom b 1 (0 + 1)).2.filter CallEv.isCall).length ≤ 2
    rw [retryFrom_succ]
    cases hb1 : b 1 with
    | ok r => simp [CallEv.isCall]
    | error e =>
      rw [retryFrom_zero]
      cases hb2 : b 2 with
      | ok r => simp [CallEv.isCall]
      | error e' => simp [CallEv.isCall]
  · intro b a ha
    rw [generateWithRetries_eq] at ha
    rw [show retryFrom b 1 1 = retryFrom b 1 (0 + 1) from rfl, retryFrom_succ] at ha
    cases hb1 : b 1 with
    | ok r =>
      rw [hb1] at ha
      simp at ha
      omega
    | error e =>
      rw [hb1, retryFrom_zero] at ha
      cases hb2 : b 2 with
      | ok r =>
        rw [hb2] at ha
        simp at ha
        rcases ha with h | h | h <;> omega
      | error e' =>
        rw [hb2] at ha
        simp at ha
        rcases ha with h | h | h <;> omega

/-- C8 witness: a backend that always fails. -/
theorem retry_bounded_witness :
    generateWithRetries (fun _ => (.error "boom" : Except String Nat)) =
      (.exhausted "boom", [.call 1, .sleep 1, .call 2]) :=
  (retry_bounded (fun _ => (.error "boom" : Except String Nat)) "boom" "boom" rfl rfl).1

/-! ## Pipeline driver (C9) -/

theorem processStructs_eq_map (gen : String → Except String (List Row))
    (save : String → List Row → Except String Unit) (g : SchemaGraph) :
    (processStructs gen save g).1 = g.map (recordStep gen save) := by
  have key : ∀ (l : List (String × StructInfo)) (acc : List DriverEv),
      (l.foldl
        (fun evs e =>
          if e.2.IsNested then evs ++ [.skippedNested e.1]
          else
            match gen e.1 with
            | .error _ => evs ++ [.generateFailed e.1]
            | .ok rows =>
              match save e.1 rows with
              | .error _ => evs ++ [.saveFailed e.1]
              | .ok _ => evs ++ [.exported e.1]) acc) = acc ++ l.map (recordStep gen save) := by
    intro l
    induction l with
    | nil => intro acc; simp
    | cons e es ih =>
      intro acc
      rw [List.foldl_cons, ih, List.map_cons]
      have hstep : (if e.2.IsNested then acc ++ [DriverEv.skippedNested e.1]
          else
            match gen e.1 with
            | .error _ => acc ++ [DriverEv.generateFailed e.1]
            | .ok rows =>
              match save e.1 rows with
              | .error _ => acc ++ [DriverEv.saveFailed e.1]
              | .ok _ => acc ++ [DriverEv.exported e.1]) = acc ++ [recordStep gen save e] := by
        unfold recordStep
        by_cases h : e.2.IsNested = true
        · simp [h]
        · simp only [h, if_false, Bool.false_eq_true]
          cases hg : gen e.1 with
          | error err => simp
          | ok rows =>
            cases hs : save e.1 rows with
            | error err => simp [hs]
            | ok u => simp [hs]
      rw [hstep]
      simp
  simpa using key g []

/-- C9: the driver loop reports per-record outcomes for every record of the
graph independently — nested records are skipped (never generated or
exported), a per-record failure leaves every other record's outcome
unchanged (the outcome at position `i` is a function of the record at
position `i` alone), and the driver always returns success for the unit. -/
theorem driver_per_record (gen : String → Except String (List Row))
    (save : String → List Row → Except String Unit) (g : SchemaGraph) :
    (processStructs gen save g).2 = .ok ()
    ∧ (processStructs gen save g).1 = g.map (recordStep gen save)
    ∧ (∀ e ∈ g, e.2.IsNested = true → recordStep gen save e = .skippedNested e.1)
    ∧ ∀ i (hi : i < g.length),
        (processStructs gen save g).1[i]? = some (recordStep gen save g[i]) := by
  refine ⟨rfl, processStructs_eq_map gen save g, ?_, ?_⟩
  · intro e _ hn
    unfold recordStep
    rw [if_pos hn]
  · intro i hi
    rw [processStructs_eq_map gen save g, List.getElem?_map, List.getElem?_eq_getElem hi]
    rfl

/-- C9 witness: a failing generation for `Customer` does not abort the
processing of the rest of `refGraph`, the nested `Phone` record is skipped,
and the driver still returns success. -/
theorem driver_per_record_witness :
    (processStructs genW saveW refGraph).2 = .ok ()
    ∧ recordStep genW saveW ("Phone", ⟨"type Phone struct", refPhoneFields, true⟩) =
        .skippedNested "Phone" :=
  ⟨(driver_per_record genW saveW refGraph).1,
   (driver_per_record genW saveW refGraph).2.2.1 _ (by simp [refGraph]) rfl⟩

/-! ## Sanitization (C5) -/

theorem data_append (a b : String) : (a ++ b).data = a.data ++ b.data := by
  cases a; cases b; rfl

theorem mk_data (s : String) : String.mk s.data = s := rfl

theorem dropWhile_append_all (p : Char → Bool) (l1 l2 : List Char)
    (h : ∀ c ∈ l1, p c = true) : (l1 ++ l2).dropWhile p = l2.dropWhile p := by
  induction l1 with
  | nil => rfl
  | cons a t ih =>
    rw [List.cons_append, List.dropWhile_cons, if_pos (h a (by simp))]
    exact ih (fun c hc => h c (by simp [hc]))

theorem dropWhile_cons_false (p : Char → Bool) (a : Char) (l : List Char)
    (h : p a = false) : (a :: l).dropWhile p = a :: l := by
  rw [List.dropWhile_cons, h]
  simp

theorem trimL_sandwich (w1 w2 mid : List Char) (a b : Char)
    (ha : isGoSpace a = false) (hb : isGoSpace b = false)
    (hw1 : ∀ c ∈ w1, isGoSpace c = true) (hw2 : ∀ c ∈ w2, isGoSpace c = true) :
    trimL (w1 ++ (a :: mid ++ [b]) ++ w2) = a :: mid ++ [b] := by
  unfold trimL
  rw [List.append_assoc, dropWhile_append_all _ w1 _ hw1]
  rw [show (a :: mid ++ [b]) ++ w2 = a :: (mid ++ [b] ++ w2) from by simp]
  rw [dropWhile_cons_false _ a _ ha]
  rw [show (a :: (mid ++ [b] ++ w2)).reverse = w2.reverse ++ (b :: (mid.reverse ++ [a]))
      from by simp]
  rw [dropWhile_append_all _ w2.reverse _ (fun c hc => hw2 c (List.mem_reverse.mp hc))]
  rw [dropWhile_cons_false _ b _ hb]
  simp

theorem trimL_of_ends (mid : List Char) (a b : Char)
    (ha : isGoSpace a = false) (hb : isGoSpace b = false) :
    trimL (a :: mid ++ [b]) = a :: mid ++ [b] := by
  have h := trimL_sandwich [] [] mid a b ha hb (by simp) (by simp)
  simpa using h

theorem isPrefixOf_cons_cons {α : Type} [BEq α] (a b : α) (as bs : List α) :
    (a :: as).isPrefixOf (b :: bs) = (a == b && as.isPrefixOf bs) := rfl

theorem nil_isPrefixOf {α : Type} [BEq α] (l : List α) : ([] : List α).isPrefixOf l = true := by
  cases l with
  | nil => rfl
  | cons b bs => rfl

theorem isPrefixOf_append_self {α : Type} [BEq α] [LawfulBEq α] (p l : List α) :
    p.isPrefixOf (p ++ l) = true := by
  induction p with
  | nil =>
    rw [List.nil_append]
    exact nil_isPrefixOf l
  | cons a t ih =>
    rw [List.cons_append, isPrefixOf_cons_cons, ih]
    simp

theorem isSuffixOf_eq (p l : List Char) :
    p.isSuffixOf l = p.reverse.isPrefixOf l.reverse := rfl

theorem trimPrefixL_append (p l : List Char) : trimPrefixL p (p ++ l) = l := by
  unfold trimPrefixL
  rw [if_pos (isPrefixOf_append_self p l), List.drop_left]

theorem trimPrefixL_no (p l : List Char) (h : p.isPrefixOf l = false) :
    trimPrefixL p l = l := by
  unfold trimPrefixL
  rw [h]
  simp

theorem trimSuffixL_append (s l : List Char) : trimSuffixL s (l ++ s) = l := by
  have hs : s.isSuffixOf (l ++ s) = true := by
    rw [isSuffixOf_eq, List.reverse_append]
    exact isPrefixOf_append_self s.reverse l.reverse
  unfold trimSuffixL
  rw [if_pos hs, List.length_append, Nat.add_sub_cancel, List.take_left]

theorem trimSuffixL_no (s l : List Char) (h : s.isSuffixOf l = false) :
    trimSuffixL s l = l := by
  unfold trimSuffixL
  rw [h]
  simp

theorem sanitizeL_unfold (l : List Char) :
    sanitizeL l =
      (if !("[".data.isPrefixOf (trimL (trimSuffixL "\n```".data (trimPrefixL "```\n".data
            (trimPrefixL "```json\n".data (trimL l))))))
          || !("]".data.isSuffixOf (trimL (trimSuffixL "\n```".data (trimPrefixL "```\n".data
            (trimPrefixL "```json\n".data (trimL l)))))) then
        "[".data ++ (trimL (trimSuffixL "\n```".data (trimPrefixL "```\n".data
            (trimPrefixL "```json\n".data (trimL l))))) ++ "]".data
      else trimL (trimSuffixL "\n```".data (trimPrefixL "```\n".data
            (trimPrefixL "```json\n".data (trimL l))))) := rfl

theorem arr_isPrefixOf_bracket (mid : List Char) :
    "[".data.isPrefixOf ('[' :: mid ++ [']']) = true := by
  rw [show "[".data = ['['] from rfl, List.cons_append, isPrefixOf_cons_cons]
  simp [nil_isPrefixOf]

theorem arr_isSuffixOf_bracket (mid : List Char) :
    "]".data.isSuffixOf ('[' :: mid ++ [']']) = true := by
  rw [isSuffixOf_eq, show "]".data.reverse = [']'] from rfl,
    show ('[' :: mid ++ [']']).reverse = ']' :: (mid.reverse ++ ['[']) from by simp,
    isPrefixOf_cons_cons]
  simp [nil_isPrefixOf]

theorem no_fence_prefix_json (mid : List Char) (tail : List Char) :
    "```json\n".data.isPrefixOf ('[' :: mid ++ [']'] ++ tail) = false := by
  rw [show "```json\n".data = btChar :: [btChar, btChar, 'j', 's', 'o', 'n', '\n'] from rfl,
    show ('[' :: mid ++ [']'] ++ tail) = '[' :: (mid ++ [']'] ++ tail) from by simp,
    isPrefixOf_cons_cons]
  simp [show (btChar == '[') = false from by decide]

theorem no_fence_prefix_plain (mid : List Char) (tail : List Char) :
    "```\n".data.isPrefixOf ('[' :: mid ++ [']'] ++ tail) = false := by
  rw [show "```\n".data = btChar :: [btChar, btChar, '\n'] from rfl,
    show ('[' :: mid ++ [']'] ++ tail) = '[' :: (mid ++ [']'] ++ tail) from by simp,
    isPrefixOf_cons_cons]
  simp [show (btChar == '[') = false from by decide]

theorem no_fence_suffix (mid : List Char) :
    "\n```".data.isSuffixOf ('[' :: mid ++ [']']) = false := by
  rw [isSuffixOf_eq, show "\n```".data.reverse = btChar :: [btChar, btChar, '\n'] from rfl,
    show ('[' :: mid ++ [']']).reverse = ']' :: (mid.reverse ++ ['[']) from by simp,
    isPrefixOf_cons_cons]
  simp [show (btChar == ']') = false from by decide]

theorem sanitizeL_fenced_json (mid : List Char) :
    sanitizeL ("```json\n".data ++ ('[' :: mid ++ [']']) ++ "\n```".data) =
      '[' :: mid ++ [']'] := by
  have h1 : trimL ("```json\n".data ++ ('[' :: mid ++ [']']) ++ "\n```".data) =
      "```json\n".data ++ ('[' :: mid ++ [']']) ++ "\n```".data := by
    rw [show "```json\n".data ++ ('[' :: mid ++ [']']) ++ "\n```".data =
        btChar :: ([btChar, btChar, 'j', 's', 'o', 'n', '\n'] ++ ('[' :: mid ++ [']']) ++
          ['\n', btChar, btChar]) ++ [btChar] from by simp [btChar]]
    exact trimL_of_ends _ btChar btChar (by decide) (by decide)
  have h2 : trimPrefixL "```json\n".data
      ("```json\n".data ++ ('[' :: mid ++ [']']) ++ "\n```".data) =
      ('[' :: mid ++ [']']) ++ "\n```".data := by
    rw [List.append_assoc]
    exact trimPrefixL_append _ _
  have h3 : trimPrefixL "```\n".data (('[' :: mid ++ [']']) ++ "\n```".data) =
      ('[' :: mid ++ [']']) ++ "\n```".data :=
    trimPrefixL_no _ _ (no_fence_prefix_plain mid "\n```".data)
  have h4 : trimSuffixL "\n```".data (('[' :: mid ++ [']']) ++ "\n```".data) =
      '[' :: mid ++ [']'] := trimSuffixL_append _ _
  have h5 : trimL ('[' :: mid ++ [']']) = '[' :: mid ++ [']'] :=
    trimL_of_ends mid '[' ']' (by decide) (by decide)
  rw [sanitizeL_unfold, h1, h2, h3, h4, h5, arr_isPrefixOf_bracket, arr_isSuffixOf_bracket]
  all_goals simp

theorem sanitizeL_fenced_plain (mid : List Char) :
    sanitizeL ("```\n".data ++ ('[' :: mid ++ [']']) ++ "\n```".data) =
      '[' :: mid ++ [']'] := by
  have h1 : trimL ("```\n".data ++ ('[' :: mid ++ [']']) ++ "\n```".data) =
      "```\n".data ++ ('[' :: mid ++ [']']) ++ "\n```".data := by
    rw [show "```\n".data ++ ('[' :: mid ++ [']']) ++ "\n```".data =
        btChar :: ([btChar, btChar, '\n'] ++ ('[' :: mid ++ [']']) ++
          ['\n', btChar, btChar]) ++ [btChar] from by simp [btChar]]
    exact trimL_of_ends _ btChar btChar (by decide) (by decide)
  have h2 : trimPrefixL "```json\n".data
      ("```\n".data ++ ('[' :: mid ++ [']']) ++ "\n```".data) =
      "```\n".data ++ ('[' :: mid ++ [']']) ++ "\n```".data := by
    refine trimPrefixL_no _ _ ?_
    rw [show "```json\n".data = btChar :: [btChar, btChar, 'j', 's', 'o', 'n', '\n'] from rfl,
      show "```\n".data ++ ('[' :: mid ++ [']']) ++ "\n```".data =
        btChar :: (btChar :: (btChar :: ('\n' :: (('[' :: mid ++ [']']) ++ "\n```".data))))
        from by simp [btChar],
      isPrefixOf_cons_cons, isPrefixOf_cons_cons, isPrefixOf_cons_cons, isPrefixOf_cons_cons]
    simp [show (('j' : Char) == '\n') = false from by decide]
  have h3 : trimPrefixL "```\n".data
      ("```\n".data ++ ('[' :: mid ++ [']']) ++ "\n```".data) =
      ('[' :: mid ++ [']']) ++ "\n```".data := by
    rw [List.append_assoc]
    exact trimPrefixL_append _ _
  have h4 : trimSuffixL "\n```".data (('[' :: mid ++ [']']) ++ "\n```".data) =
      '[' :: mid ++ [']'] := trimSuffixL_append _ _
  have h5 : trimL ('[' :: mid ++ [']']) = '[' :: mid ++ [']'] :=
    trimL_of_ends mid '[' ']' (by decide) (by decide)
  rw [sanitizeL_unfold, h1, h2, h3, h4, h5, arr_isPrefixOf_bracket, arr_isSuffixOf_bracket]
  all_goals simp

theorem sanitizeL_bare (w1 w2 mid : List Char)
    (hw1 : ∀ c ∈ w1, isGoSpace c = true) (hw2 : ∀ c ∈ w2, isGoSpace c = true) :
    sanitizeL (w1 ++ ('[' :: mid ++ [']']) ++ w2) = '[' :: mid ++ [']'] := by
  have h1 : trimL (w1 ++ ('[' :: mid ++ [']']) ++ w2) = '[' :: mid ++ [']'] :=
    trimL_sandwich w1 w2 mid '[' ']' (by decide) (by decide) hw1 hw2
  have h2 : trimPrefixL "```json\n".data ('[' :: mid ++ [']']) = '[' :: mid ++ [']'] := by
    refine trimPrefixL_no _ _ ?_
    have h := no_fence_prefix_json mid []
    simpa using h
  have h3 : trimPrefixL "```\n".data ('[' :: mid ++ [']']) = '[' :: mid ++ [']'] := by
    refine trimPrefixL_no _ _ ?_
    have h := no_fence_prefix_plain mid []
    simpa using h
  have h4 : trimSuffixL "\n```".data ('[' :: mid ++ [']']) = '[' :: mid ++ [']'] :=
    trimSuffixL_no _ _ (no_fence_suffix mid)
  have h5 : trimL ('[' :: mid ++ [']']) = '[' :: mid ++ [']'] :=
    trimL_of_ends mid '[' ']' (by decide) (by decide)
  rw [sanitizeL_unfold, h1, h2, h3, h4, h5, arr_isPrefixOf_bracket, arr_isSuffixOf_bracket]
  all_goals simp

/-- C5: a reply consisting of a fenced JSON array sanitizes to exactly the
inner array text with no fence markers (both fence spellings the code
strips), and a reply that is already a bare JSON array surrounded only by
whitespace sanitizes to that array unchanged — in particular sanitization is
idempotent on already-clean input (`w1 = w2 = ""`). -/
theorem sanitize_fences (w1 w2 inner : String) (mid : List Char)
    (hw1 : ∀ c ∈ w1.data, isGoSpace c = true)
    (hw2 : ∀ c ∈ w2.data, isGoSpace c = true)
    (hin : inner.data = '[' :: mid ++ [']']) :
    sanitize ("```json\n" ++ inner ++ "\n```") = inner
    ∧ sanitize ("```\n" ++ inner ++ "\n```") = inner
    ∧ sanitize (w1 ++ inner ++ w2) = inner := by
  refine ⟨?_, ?_, ?_⟩
  · show String.mk (sanitizeL (("```json\n" ++ inner ++ "\n```").data)) = inner
    rw [data_append, data_append, hin, sanitizeL_fenced_json, ← hin]
  · show String.mk (sanitizeL (("```\n" ++ inner ++ "\n```").data)) = inner
    rw [data_append, data_append, hin, sanitizeL_fenced_plain, ← hin]
  · show String.mk (sanitizeL ((w1 ++ inner ++ w2).data)) = inner
    rw [data_append, data_append, hin, sanitizeL_bare w1.data w2.data mid hw1 hw2, ← hin]

/-- C5 witness: the fenced and whitespace-padded forms of `[1, 2]`. -/
theorem sanitize_fences_witness :
    sanitize ("```json\n" ++ "[1, 2]" ++ "\n```") = "[1, 2]"
    ∧ sanitize ("```\n" ++ "[1, 2]" ++ "\n```") = "[1, 2]"
    ∧ sanitize ("  " ++ "[1, 2]" ++ " \n") = "[1, 2]" :=
  sanitize_fences "  " " \n" "[1, 2]" ['1', ',', ' ', '2']
    (by decide) (by decide) rfl

/-! ## Row validation of the delegated strategy (C2) -/

theorem mem_of_getq {α : Type} (l : List α) (j : Nat) (a : α) (h : l[j]? = some a) :
    a ∈ l := by
  induction l generalizing j with
  | nil => simp at h
  | cons x xs ih =>
    cases j with
    | zero =>
      simp at h
      simp [h]
    | succ j' =>
      rw [List.getElem?_cons_succ] at h
      exact List.mem_cons_of_mem x (ih j' h)

theorem checkNestedFields_ok_of_all (i : Nat) (s f : String) (nfs : FieldMap) (nr : Row)
    (h : ∀ np ∈ nfs, (getS nr (wireName np.1 np.2)).isSome = true) :
    checkNestedFields i s f nfs nr = .ok () := by
  induction nfs with
  | nil => rfl
  | cons np rest ih =>
    obtain ⟨nn, nfi⟩ := np
    have hh := h (nn, nfi) (by simp)
    have hcond : ¬ (((getS nr (wireName nn nfi)).isNone &&
        !(containsOmitempty nfi.jsonTag)) = true) := by
      cases ho : getS nr (wireName nn nfi) with
      | none => rw [ho] at hh; simp at hh
      | some v => simp [ho]
    unfold checkNestedFields
    rw [if_neg hcond]
    exact ih (fun np hnp => h np (by simp [hnp]))

theorem checkNestedFields_error_shape (i : Nat) (s f : String) (nfs : FieldMap) (nr : Row)
    (e : GenError) (h : checkNestedFields i s f nfs nr = .error e) :
    ∃ ntag, e = .missingNestedField i s f ntag := by
  induction nfs with
  | nil => exact Except.noConfusion h
  | cons np rest ih =>
    obtain ⟨nn, nfi⟩ := np
    by_cases hc : (((getS nr (wireName nn nfi)).isNone &&
        !(containsOmitempty nfi.jsonTag)) = true)
    · unfold checkNestedFields at h
      rw [if_pos hc] at h
      exact ⟨wireName nn nfi, (Except.error.inj h).symm⟩
    · unfold checkNestedFields at h
      rw [if_neg hc] at h
      exact ih h

theorem checkFields_ok_of_all (g : SchemaGraph) (i : Nat) (s : String) (fs : FieldMap)
    (row : Row)
    (h : ∀ fp ∈ fs, ∃ v, getS row (wireName fp.1 fp.2) = some v ∧
      ∀ ni, getS g fp.2.type = some ni → ∃ nr, v = Value.obj nr ∧
        ∀ np ∈ ni.Fields, (getS nr (wireName np.1 np.2)).isSome = true) :
    checkFields g i s fs row = .ok () := by
  induction fs with
  | nil => rfl
  | cons fp rest ih =>
    obtain ⟨fName, fi⟩ := fp
    obtain ⟨v, hv, hnest⟩ := h (fName, fi) (by simp)
    have hrest : checkFields g i s rest row = .ok () :=
      ih (fun fp hfp => h fp (by simp [hfp]))
    cases hni : getS g fi.type with
    | none =>
      simp only [checkFields, hv, hni]
      exact hrest
    | some ni =>
      obtain ⟨nr, hvnr, hall⟩ := hnest ni hni
      subst hvnr
      have hnested : checkNestedFields i s (wireName fName fi) ni.Fields nr = .ok () :=
        checkNestedFields_ok_of_all i s _ ni.Fields nr hall
      simp only [checkFields, hv, hni, Value.asObj, hnested]
      exact hrest

theorem checkFields_ok_implies_present (g : SchemaGraph) (i : Nat) (s : String)
    (fs : FieldMap) (row : Row) (h : checkFields g i s fs row = .ok ()) :
    ∀ fp ∈ fs, (getS row (wireName fp.1 fp.2)).isSome = true := by
  induction fs with
  | nil => intro fp hfp; cases hfp
  | cons f0 rest ih =>
    obtain ⟨fName, fi⟩ := f0
    intro fp hfp
    cases hr : getS row (wireName fName fi) with
    | none =>
      exfalso
      simp only [checkFields, hr] at h
      exact Except.noConfusion h
    | some v =>
      rcases List.mem_cons.mp hfp with heq | hmem
      · subst heq
        simp [hr]
      · refine ih ?_ fp hmem
        cases hni : getS g fi.type with
        | none => simpa only [checkFields, hr, hni] using h
        | some ni =>
          cases ho : v.asObj with
          | none =>
            exfalso
            simp only [checkFields, hr, hni, ho] at h
            exact Except.noConfusion h
          | some nr =>
            cases hcn : checkNestedFields i s (wireName fName fi) ni.Fields nr with
            | ok u =>
              cases u
              simpa only [checkFields, hr, hni, ho, hcn] using h
            | error e =>
              exfalso
              simp only [checkFields, hr, hni, ho, hcn] at h
              exact Except.noConfusion h

theorem checkFields_missing_shape (g : SchemaGraph) (i : Nat) (s : String) (fs : FieldMap)
    (row : Row) (i' : Nat) (s' w : String)
    (h : checkFields g i s fs row = .error (.missingField i' s' w)) :
    i' = i ∧ s' = s ∧ getS row w = none ∧ ∃ fp ∈ fs, wireName fp.1 fp.2 = w := by
  induction fs with
  | nil => exact Except.noConfusion h
  | cons f0 rest ih =>
    obtain ⟨fName, fi⟩ := f0
    cases hr : getS row (wireName fName fi) with
    | none =>
      simp only [checkFields, hr, Except.error.injEq, GenError.missingField.injEq] at h
      obtain ⟨h1, h2, h3⟩ := h
      refine ⟨h1.symm, h2.symm, ?_, (fName, fi), by simp, h3⟩
      rw [← h3]
      exact hr
    | some v =>
      cases hni : getS g fi.type with
      | none =>
        have h' : checkFields g i s rest row = .error (.missingField i' s' w) := by
          simpa only [checkFields, hr, hni] using h
        obtain ⟨h1, h2, h3, fp, hfp, hw⟩ := ih h'
        exact ⟨h1, h2, h3, fp, by simp [hfp], hw⟩
      | some ni =>
        cases ho : v.asObj with
        | none =>
          simp only [checkFields, hr, hni, ho] at h
          simp at h
        | some nr =>
          cases hcn : checkNestedFields i s (wireName fName fi) ni.Fields nr with
          | ok u =>
            cases u
            have h' : checkFields g i s rest row = .error (.missingField i' s' w) := by
              simpa only [checkFields, hr, hni, ho, hcn] using h
            obtain ⟨h1, h2, h3, fp, hfp, hw⟩ := ih h'
            exact ⟨h1, h2, h3, fp, by simp [hfp], hw⟩
          | error e =>
            exfalso
            simp only [checkFields, hr, hni, ho, hcn] at h
            obtain ⟨ntag, hshape⟩ :=
              checkNestedFields_error_shape i s (wireName fName fi) ni.Fields nr e hcn
            rw [hshape] at h
            simp at h

theorem validateRowsAux_ok (g : SchemaGraph) (s : String) (fs : FieldMap) :
    ∀ (i : Nat) (rows : List Row),
    (∀ row ∈ rows, ∀ k, checkFields g k s fs row = .ok ()) →
    validateRowsAux g s fs i rows = .ok () := by
  intro i rows
  induction rows generalizing i with
  | nil => intro _; rfl
  | cons r rest ih =>
    intro h
    have hr := h r (by simp) (i + 1)
    simp only [validateRowsAux, hr]
    exact ih (i + 1) (fun row hrow k => h row (by simp [hrow]) k)

theorem validateRowsAux_ok_mem (g : SchemaGraph) (s : String) (fs : FieldMap) :
    ∀ (i : Nat) (rows : List Row),
    validateRowsAux g s fs i rows = .ok () →
    ∀ row ∈ rows, ∃ k, checkFields g k s fs row = .ok () := by
  intro i rows
  induction rows generalizing i with
  | nil => intro _ row hrow; cases hrow
  | cons r rest ih =>
    intro h row hrow
    cases hc : checkFields g (i + 1) s fs r with
    | error e =>
      exfalso
      simp only [validateRowsAux, hc] at h
      exact Except.noConfusion h
    | ok u =>
      cases u
      rcases List.mem_cons.mp hrow with heq | hmem
      · exact ⟨i + 1, heq ▸ hc⟩
      · have h' : validateRowsAux g s fs (i + 1) rest = .ok () := by
          simpa only [validateRowsAux, hc] using h
        exact ih (i + 1) h' row hmem

theorem validateRowsAux_missing_shape (g : SchemaGraph) (s : String) (fs : FieldMap) :
    ∀ (i : Nat) (rows : List Row) (idx : Nat) (s' w : String),
    validateRowsAux g s fs i rows = .error (.missingField idx s' w) →
    s' = s ∧ ∃ j row, idx = i + j + 1 ∧ rows[j]? = some row ∧ getS row w = none ∧
      ∃ fp ∈ fs, wireName fp.1 fp.2 = w := by
  intro i rows
  induction rows generalizing i with
  | nil => intro idx s' w h; exact Except.noConfusion h
  | cons r rest ih =>
    intro idx s' w h
    cases hc : checkFields g (i + 1) s fs r with
    | ok u =>
      cases u
      have h' : validateRowsAux g s fs (i + 1) rest = .error (.missingField idx s' w) := by
        simpa only [validateRowsAux, hc] using h
      obtain ⟨hs, j, row, hidx, hget, hnone, hfp⟩ := ih (i + 1) idx s' w h'
      refine ⟨hs, j + 1, row, by omega, ?_, hnone, hfp⟩
      simpa using hget
    | error e =>
      have he : e = .missingField idx s' w := by
        simp only [validateRowsAux, hc] at h
        exact Except.error.inj h
      obtain ⟨h1, h2, h3, fp, hfp, hw⟩ :=
        checkFields_missing_shape g (i + 1) s fs r idx s' w (he ▸ hc)
      exact ⟨h2, 0, r, by omega, by simp, h3, fp, hfp, hw⟩

/-- C2: for a record of the graph, (a) whenever some row lacks a value under
the wire name of one of the record's fields, validation fails; (b) every
missing-field failure report carries the (1-based) index of a row genuinely
lacking that wire name together with that wire name; (c) a list of rows each
containing a key for every wire name, with a conforming nested object for
each nested field, is accepted. -/
theorem validation_missing_fields (g : SchemaGraph) (sName : String) (recI : StructInfo)
    (hrec : getS g sName = some recI) (rows : List Row) :
    ((∃ (j : Nat) (row : Row) (fp : String × FieldInfo), rows[j]? = some row ∧
        fp ∈ recI.Fields ∧ getS row (wireName fp.1 fp.2) = none) →
      ∃ e, validateRows g sName rows = .error e)
    ∧ (∀ idx s' w, validateRows g sName rows = .error (.missingField idx s' w) →
        s' = sName ∧ ∃ (j : Nat) (row : Row), idx = j + 1 ∧ rows[j]? = some row ∧
          getS row w = none ∧ ∃ fp ∈ recI.Fields, wireName fp.1 fp.2 = w)
    ∧ ((∀ row ∈ rows, ∀ fp ∈ recI.Fields, ∃ v, getS row (wireName fp.1 fp.2) = some v ∧
          ∀ ni, getS g fp.2.type = some ni → ∃ nr, v = Value.obj nr ∧
            ∀ np ∈ ni.Fields, (getS nr (wireName np.1 np.2)).isSome = true) →
        validateRows g sName rows = .ok ()) := by
  have hcs : (getS g sName).getD ⟨"", [], false⟩ = recI := by rw [hrec]; rfl
  refine ⟨?_, ?_, ?_⟩
  · rintro ⟨j, row, fp, hj, hfp, hnone⟩
    cases hv : validateRows g sName rows with
    | error e => exact ⟨e, rfl⟩
    | ok u =>
      cases u
      exfalso
      unfold validateRows at hv
      rw [hcs] at hv
      obtain ⟨k, hk⟩ :=
        validateRowsAux_ok_mem g sName recI.Fields 0 rows hv row (mem_of_getq rows j row hj)
      have hp := checkFields_ok_implies_present g k sName recI.Fields row hk fp hfp
      rw [hnone] at hp
      simp at hp
  · intro idx s' w hv
    unfold validateRows at hv
    rw [hcs] at hv
    obtain ⟨hs, j, row, hidx, hget, hnone, hfp⟩ :=
      validateRowsAux_missing_shape g sName recI.Fields 0 rows idx s' w hv
    exact ⟨hs, j, row, by omega, hget, hnone, hfp⟩
  · intro hall
    unfold validateRows
    rw [hcs]
    refine validateRowsAux_ok g sName recI.Fields 0 rows ?_
    intro row hrow k
    exact checkFields_ok_of_all g k sName recI.Fields row (hall row hrow)

/-- C2 witness: on the reference graph, a row missing the wire name `type`
is rejected and a fully conforming row is accepted. -/
theorem validation_missing_fields_witness :
    (∃ e, validateRows refGraph "Customer" [c2badRow] = .error e)
    ∧ validateRows refGraph "Customer" [c2goodRow] = .ok () := by
  constructor
  · refine (validation_missing_fields refGraph "Customer"
      ⟨"type Customer struct", refCustomerFields, false⟩ rfl [c2badRow]).1 ?_
    exact ⟨0, c2badRow, ("Type", ⟨"string", "type"⟩), rfl, by decide, rfl⟩
  · refine (validation_missing_fields refGraph "Customer"
      ⟨"type Customer struct", refCustomerFields, false⟩ rfl [c2goodRow]).2.2 ?_
    intro row hrow fp hfp
    rw [List.mem_singleton] at hrow
    subst hrow
    rcases List.mem_cons.mp hfp with h | hfp'
    · subst h
      refine ⟨Value.str "a", rfl, ?_⟩
      intro ni hni
      rw [show getS refGraph "string" = none from rfl] at hni
      cases hni
    · rcases List.mem_cons.mp hfp' with h | hfp''
      · subst h
        refine ⟨Value.str "Individual", rfl, ?_⟩
        intro ni hni
        rw [show getS refGraph "string" = none from rfl] at hni
        cases hni
      · rcases List.mem_cons.mp hfp'' with h | habs
        · subst h
          refine ⟨Value.obj [("country_code", .str "+1"), ("phone_number", .str "5551234")],
            rfl, ?_⟩
          intro ni hni
          rw [show getS refGraph "Phone" =
            some ⟨"type Phone struct", refPhoneFields, true⟩ from rfl] at hni
          have hni' := Option.some.inj hni
          refine ⟨[("country_code", .str "+1"), ("phone_number", .str "5551234")], rfl, ?_⟩
          rw [← hni']
          decide
        · cases habs

/-! ## The omitempty exemption is dead code (C3) -/

/-- C3 (code-bug evidence): extraction stores the tag name with the
`,omitempty` modifier stripped (`strings.Split(jsonTag, ",")[0]`), so the
validator's exemption test `strings.Contains(JSONTag, "omitempty")` can
never fire for a genuinely optional nested field: a nested phone object
missing only the `,omitempty`-tagged subfield `p1` is rejected instead of
accepted. -/
theorem omitempty_exemption_dead :
    extractStructDefs c3decls = some c3graph
    ∧ parseJSONTag "p1" (some "`json:\"p1,omitempty\"`") = "p1"
    ∧ containsOmitempty (parseJSONTag "p1" (some "`json:\"p1,omitempty\"`")) = false
    ∧ validateRows c3graph "Customer" [c3row] =
        .error (.missingNestedField 1 "Customer" "phone" "p1") :=
  ⟨rfl, rfl, by decide, rfl⟩

/-! ## Phone synthesis uses two draws (C6) and stays in bounds (C10) -/

theorem genPhoneFields_pair (o : Oracle) (t : Nat) (fp1 fp2 : FieldInfo)
    (hne : wireName "p1" fp1 ≠ wireName "p2" fp2) (cc num : String)
    (h1 : goSliceTo (o.phoneAt t) 2 = some cc)
    (h2 : goSliceFrom (o.phoneAt (t + 1)) 3 = some num) :
    genPhoneFields o [("p1", fp1), ("p2", fp2)] [] t =
      .ok ([(wireName "p1" fp1, .str cc), (wireName "p2" fp2, .str num)], t + 2) := by
  simp [genPhoneFields, h1, h2, putS, hne]

/-- C6 (amended): the two phone subfields come from two separate formatted
draws — the country-code subfield is the two-character leading slice of the
draw at tick `t`, and the subscriber subfield is the from-index-3 slice of
the independent draw at tick `t + 1` — assembled as an object keyed by the
nested record's wire names. -/
theorem phone_two_draws (o : Oracle) (t : Nat) (fp1 fp2 : FieldInfo)
    (hne : wireName "p1" fp1 ≠ wireName "p2" fp2) (cc num : String)
    (h1 : goSliceTo (o.phoneAt t) 2 = some cc)
    (h2 : goSliceFrom (o.phoneAt (t + 1)) 3 = some num) :
    genPhoneFields o [("p1", fp1), ("p2", fp2)] [] t =
      .ok ([(wireName "p1" fp1, .str cc), (wireName "p2" fp2, .str num)], t + 2) :=
  genPhoneFields_pair o t fp1 fp2 hne cc num h1 h2

/-- C6 counterexample: with the draws `+1 111-1111` (tick 0) and
`+2 222-2222` (tick 1), the synthesized pair is `("+1", "222-2222")`, which
matches neither single draw's (first-two, from-index-3) decomposition — so
the two subfields are not derived from one phone value, refuting the claim
as stated. -/
theorem phone_one_draw_false :
    genPhoneFields c6Oracle [("p1", ⟨"string", "p1"⟩), ("p2", ⟨"string", "p2"⟩)] [] 0 =
      .ok ([("p1", .str "+1"), ("p2", .str "222-2222")], 2)
    ∧ ¬ ∃ t, t < 2 ∧ "+1" = String.mk ((c6Oracle.phoneAt t).data.take 2) ∧
        "222-2222" = String.mk ((c6Oracle.phoneAt t).data.drop 3) := by
  refine ⟨rfl, ?_⟩
  rintro ⟨t, ht, hcc, hnum⟩
  interval_cases t
  · exact absurd hnum (by decide)
  · exact absurd hcc (by decide)

/-- C6 witness: the (amended) theorem at the concrete oracle `c6Oracle`. -/
theorem phone_two_draws_witness :
    genPhoneFields c6Oracle [("p1", ⟨"string", "p1"⟩), ("p2", ⟨"string", "p2"⟩)] [] 0 =
      .ok ([("p1", .str "+1"), ("p2", .str "222-2222")], 0 + 2) :=
  phone_two_draws c6Oracle 0 ⟨"string", "p1"⟩ ⟨"string", "p2"⟩ (by decide)
    "+1" "222-2222" rfl rfl

/-- C10: the `[:2]` and `[3:]` slices of the phone synthesis stay in bounds
whenever every formatter value has length at least 3 (and then compute the
leading-two and from-index-3 substrings of the two draws); the `[:2]` slice
is out of range exactly on strings shorter than 2, the `[3:]` slice exactly
on strings shorter than 3, and a draw of length less than 3 at the
subscriber position makes the synthesis hit the out-of-range case. -/
theorem phone_slice_safety (o : Oracle) (t : Nat) (fp1 fp2 : FieldInfo)
    (hne : wireName "p1" fp1 ≠ wireName "p2" fp2)
    (hlen : ∀ u, 3 ≤ (o.phoneAt u).data.length) :
    (genPhoneFields o [("p1", fp1), ("p2", fp2)] [] t =
      .ok ([(wireName "p1" fp1, .str (String.mk ((o.phoneAt t).data.take 2))),
            (wireName "p2" fp2, .str (String.mk ((o.phoneAt (t + 1)).data.drop 3)))], t + 2))
    ∧ (∀ s : String, goSliceTo s 2 = none ↔ s.data.length < 2)
    ∧ (∀ s : String, goSliceFrom s 3 = none ↔ s.data.length < 3)
    ∧ (∀ o' : Oracle, 2 ≤ (o'.phoneAt t).data.length →
        (o'.phoneAt (t + 1)).data.length < 3 →
        genPhoneFields o' [("p1", fp1), ("p2", fp2)] [] t = .error .outOfRange) := by
  refine ⟨?_, ?_, ?_, ?_⟩
  · refine genPhoneFields_pair o t fp1 fp2 hne _ _ ?_ ?_
    · unfold goSliceTo
      rw [if_pos (by have := hlen t; omega)]
    · unfold goSliceFrom
      rw [if_pos (hlen (t + 1))]
  · intro s
    unfold goSliceTo
    by_cases hc : 2 ≤ s.data.length
    · rw [if_pos hc]
      constructor
      · intro habs; cases habs
      · intro habs; exact absurd habs (by omega)
    · rw [if_neg hc]
      constructor
      · intro _; omega
      · intro _; rfl
  · intro s
    unfold goSliceFrom
    by_cases hc : 3 ≤ s.data.length
    · rw [if_pos hc]
      constructor
      · intro habs; cases habs
      · intro habs; exact absurd habs (by omega)
    · rw [if_neg hc]
      constructor
      · intro _; omega
      · intro _; rfl
  · intro o' h2le h3lt
    have hs1 : goSliceTo (o'.phoneAt t) 2 = some (String.mk ((o'.phoneAt t).data.take 2)) := by
      unfold goSliceTo
      rw [if_pos h2le]
    have hs2 : goSliceFrom (o'.phoneAt (t + 1)) 3 = none := by
      unfold goSliceFrom
      rw [if_neg (by omega)]
    simp [genPhoneFields, hs1, hs2]

/-- C10 witness: the safety theorem at the constant oracle `oW`. -/
theorem phone_slice_safety_witness :
    genPhoneFields oW
        [("p1", ⟨"string", "country_code"⟩), ("p2", ⟨"string", "phone_number"⟩)] [] 0 =
      .ok ([("country_code", .str "+1"), ("phone_number", .str "555-1234")], 0 + 2) :=
  (phone_slice_safety oW 0 ⟨"string", "country_code"⟩ ⟨"string", "phone_number"⟩
    (by decide)
    (fun u => by show 3 ≤ ("+1 555-1234" : String).data.length; decide)).1

/-! ## Deterministic strategy end to end (C7) -/

theorem genCustomerRows_length (o : Oracle) (g : SchemaGraph) (cf : FieldMap) :
    ∀ (k t : Nat) (acc rows' : List Row) (t' : Nat),
    genCustomerRows o g cf k t acc = .ok (rows', t') → rows'.length = acc.length + k := by
  intro k
  induction k with
  | zero =>
    intro t acc rows' t' h
    simp only [genCustomerRows, Except.ok.injEq, Prod.mk.injEq] at h
    obtain ⟨h1, _⟩ := h
    rw [← h1]
    simp
  | succ k ih =>
    intro t acc rows' t' h
    cases hc : genCustomerFields o g cf [] t with
    | error e =>
      simp only [genCustomerRows, hc] at h
      exact Except.noConfusion h
    | ok pr =>
      obtain ⟨row, t1⟩ := pr
      have h' : genCustomerRows o g cf k t1 (row :: acc) = .ok (rows', t') := by
        simpa only [genCustomerRows, hc] using h
      have hlen := ih t1 (row :: acc) rows' t' h'
      simp at hlen
      omega

theorem genCustomerRows_mem (o : Oracle) (g : SchemaGraph) (cf : FieldMap) :
    ∀ (k t : Nat) (acc rows' : List Row) (t' : Nat),
    genCustomerRows o g cf k t acc = .ok (rows', t') →
    ∀ r ∈ rows', r ∈ acc ∨ ∃ t0 t1, genCustomerFields o g cf [] t0 = .ok (r, t1) := by
  intro k
  induction k with
  | zero =>
    intro t acc rows' t' h r hr
    simp only [genCustomerRows, Except.ok.injEq, Prod.mk.injEq] at h
    obtain ⟨h1, _⟩ := h
    rw [← h1] at hr
    exact Or.inl (List.mem_reverse.mp hr)
  | succ k ih =>
    intro t acc rows' t' h r hr
    cases hc : genCustomerFields o g cf [] t with
    | error e =>
      simp only [genCustomerRows, hc] at h
      exact Except.noConfusion h
    | ok pr =>
      obtain ⟨row, t1⟩ := pr
      have h' : genCustomerRows o g cf k t1 (row :: acc) = .ok (rows', t') := by
        simpa only [genCustomerRows, hc] using h
      rcases ih t1 (row :: acc) rows' t' h' r hr with hin | hex
      · rcases List.mem_cons.mp hin with heq | hmem
        · exact Or.inr ⟨t, t1, by rw [heq]; exact hc⟩
        · exact Or.inl hmem
      · exact Or.inr hex

theorem genCustomerFields_ref_shape (o : Oracle) (t0 : Nat) (r : Row) (t1 : Nat)
    (h : genCustomerFields o refGraph refCustomerFields [] t0 = .ok (r, t1)) :
    ∃ cc num, r = [("customer_id", .str (o.uuidAt t0)),
      ("type", .str (o.randomStringAt (t0 + 1) ["Individual", "Business", "NonProfit"])),
      ("phone", .obj [("country_code", .str cc), ("phone_number", .str num)])] := by
  cases hs1 : goSliceTo (o.phoneAt (t0 + 2)) 2 with
  | none =>
    exfalso
    simp [genCustomerFields, genPhoneFields, refCustomerFields, refGraph, refPhoneFields,
      wireName, putS, getS, hs1] at h
  | some cc =>
    cases hs2 : goSliceFrom (o.phoneAt (t0 + 3)) 3 with
    | none =>
      exfalso
      simp [genCustomerFields, genPhoneFields, refCustomerFields, refGraph, refPhoneFields,
        wireName, putS, getS, hs1, hs2] at h
    | some num =>
      refine ⟨cc, num, ?_⟩
      simp [genCustomerFields, genPhoneFields, refCustomerFields, refGraph, refPhoneFields,
        wireName, putS, getS, hs1, hs2] at h
      exact h.1.symm

/-- C7: every successful run of the deterministic strategy on the reference
graph returns exactly 30 rows, the rows pass the strategy's own validation
for the `Customer` record, and each row's `phone` field is present as a
nested object with exactly two keys. -/
theorem deterministic_run (o : Oracle) (rows : List Row)
    (h : generateCustomer o refGraph = .ok rows) :
    rows.length = 30
    ∧ validateCustomerRows refGraph refCustomerFields rows = .ok ()
    ∧ ∀ row ∈ rows, ∃ nr, getS row "phone" = some (Value.obj nr) ∧ nr.length = 2 := by
  have hcf : ((getS refGraph "Customer").getD ⟨"", [], false⟩).Fields = refCustomerFields :=
    rfl
  unfold generateCustomer at h
  rw [hcf] at h
  cases hgen : genCustomerRows o refGraph refCustomerFields 30 0 [] with
  | error e =>
    simp only [hgen] at h
    exact Except.noConfusion h
  | ok pr =>
    obtain ⟨rows', t'⟩ := pr
    simp only [hgen] at h
    cases hval : validateCustomerRows refGraph refCustomerFields rows' with
    | error e =>
      simp only [hval] at h
      exact Except.noConfusion h
    | ok u =>
      cases u
      simp only [hval] at h
      have hrows : rows' = rows := Except.ok.inj h
      subst hrows
      refine ⟨?_, hval, ?_⟩
      · have hlen := genCustomerRows_length o refGraph refCustomerFields 30 0 [] rows' t' hgen
        simpa using hlen
      · intro r hr
        rcases genCustomerRows_mem o refGraph refCustomerFields 30 0 [] rows' t' hgen r hr
          with habs | ⟨t0, t1, hfr⟩
        · cases habs
        · obtain ⟨cc, num, hshape⟩ := genCustomerFields_ref_shape o t0 r t1 hfr
          rw [hshape]
          exact ⟨[("country_code", .str cc), ("phone_number", .str num)], rfl, rfl⟩

/-- C7 witness: the constant oracle `oW` gives a successful run producing 30
copies of `c7row`. -/
theorem deterministic_run_witness :
    (List.replicate 30 c7row).length = 30
    ∧ validateCustomerRows refGraph refCustomerFields (List.replicate 30 c7row) = .ok ()
    ∧ ∀ row ∈ List.replicate 30 c7row,
        ∃ nr, getS row "phone" = some (Value.obj nr) ∧ nr.length = 2 :=
  deterministic_run oW (List.replicate 30 c7row) rfl
